import Mathlib

/-!
# Formal model of `train-ute`'s binary data export (`src/data_export.rs`)

This development gives a shallow embedding of the aligned binary chunk
container writer (`write_bin`) and the two exporters
(`export_shape_file`, `export_agent_transfers`) of the repository, and
proves the specified properties about them.

Modelling conventions:
* A file is a `List Nat` of byte values (each `< 256` by construction).
* Rust `usize`/`u32` arithmetic is modelled on `Nat`; truncating casts
  (`as u32`) are written explicitly as `% 4294967296` (that is, `% 2^32`).
* IEEE-754 values (`f32`/`f64`) are modelled as exact rationals (`Rat`).
  Every floating-point operation the exported code performs on them is
  exact on the represented values (copying, repeatedly adding the
  constant `10.`, the constant `100.`, numeric casts of small values),
  so the exact model coincides with the source for all inputs the
  claims quantify over.
* Rust `HashMap`s are modelled as association lists; the (unspecified)
  iteration order of `gtfs.shapes` is made explicit as the order of the
  modelled list.
* Operations that can `panic!` in the source (`unwrap`, out-of-range
  indexing) are modelled in the `Option` monad, `none` meaning the
  process aborts.
-/

namespace TrainUte

/-- Model of `round_up_to_eight` in `write_bin`: `(num + 7) & !7`
(clearing the low three bits of `num + 7`, i.e. rounding up to a
multiple of 8). -/
def round_up_to_eight (num : Nat) : Nat :=
  (num + 7) / 8 * 8

/-- Little-endian byte serialization of a value truncated to `u32`:
model of `(x as u32).to_le_bytes()`. -/
def u32ToLeBytes (n : Nat) : List Nat :=
  [n % 256, n / 256 % 256, n / 65536 % 256, n / 16777216 % 256]

/-- The header loop of `write_bin`: for each chunk, the running offset
`index` (truncated to `u32`) and the chunk's byte length (truncated to
`u32`), both little-endian; `index` advances by the padded length. -/
def writeBinHeader (index : Nat) : List (List Nat) → List Nat
  | [] => []
  | data :: rest =>
    u32ToLeBytes index ++ u32ToLeBytes data.length
      ++ writeBinHeader (index + round_up_to_eight data.length) rest

/-- The data loop of `write_bin`: each chunk's raw bytes followed by
`round_up_to_eight (len) - len` zero bytes. -/
def writeBinData : List (List Nat) → List Nat
  | [] => []
  | data :: rest =>
    data ++ List.replicate (round_up_to_eight data.length - data.length) 0
      ++ writeBinData rest

/-- Model of `write_bin`: the byte content of the produced file.
`header_size = data_list.len() * 2 * size_of::<u32>()`, and the running
offset starts past the header. -/
def write_bin (data_list : List (List Nat)) : List Nat :=
  writeBinHeader (data_list.length * 2 * 4) data_list ++ writeBinData data_list

/-- Sum of the 8-byte-aligned (padded) chunk lengths of a chunk list. -/
def paddedSum (C : List (List Nat)) : Nat :=
  (C.map (fun c => round_up_to_eight c.length)).sum

/-- Read a little-endian `u32` from a byte list at byte position `pos`
(missing bytes read as 0). -/
def readU32 (file : List Nat) (pos : Nat) : Nat :=
  file.getD pos 0 + 256 * file.getD (pos + 1) 0
    + 65536 * file.getD (pos + 2) 0 + 16777216 * file.getD (pos + 3) 0

/-- The offset field of header entry `i` of a container file. -/
def headerOffset (file : List Nat) (i : Nat) : Nat :=
  readU32 file (8 * i)

/-- The length field of header entry `i` of a container file. -/
def headerLength (file : List Nat) (i : Nat) : Nat :=
  readU32 file (8 * i + 4)

/-- An RGB colour (`rgb::RGB8` from the `gtfs_structures` route data):
three `u8` components. -/
structure Colour where
  r : Nat
  g : Nat
  b : Nat
deriving DecidableEq

/-- A shape point (`gtfs_structures::Shape`): the exporter reads its
`longitude` and `latitude` (`f64`, modelled as exact rationals). -/
structure ShapePoint where
  longitude : Rat
  latitude : Rat
deriving DecidableEq

/-- The part of `gtfs_structures::Trip` the exporter reads. -/
structure Trip where
  shape_id : Option String
  route_id : String
deriving DecidableEq

/-- The part of `gtfs_structures::Route` the exporter reads. -/
structure Route where
  color : Colour
deriving DecidableEq

/-- The part of `gtfs_structures::Stop` the transfer exporter reads:
optional coordinates (`Option<f64>` in the source, unwrapped). -/
structure Stop where
  longitude : Option Rat
  latitude : Option Rat
deriving DecidableEq

/-- The part of `gtfs_structures::Gtfs` the exporters read.  The `HashMap`
collections are modelled as association lists whose order makes the
(unspecified) iteration order explicit; `trips` models the order of
`gtfs.trips.values()`. -/
structure Gtfs where
  shapes : List (String × List ShapePoint)
  trips : List Trip
  routes : List (String × Route)
  stops : List (String × Stop)
deriving DecidableEq

/-- The interface of `raptor::Network` used by `export_agent_transfers`:
`num_stops()` and `get_stop(idx).id`, modelled as the list of stop ids in
index order. -/
structure Network where
  stop_ids : List String
deriving DecidableEq

/-- Modelled from the spec: `crate::simulation::AgentTransfer`
(`src/simulation.rs` is not part of the sources).  §3 of the spec defines
the Agent Transfer Record as `{start_idx: stop index, end_idx: stop
index, timestamp: departure time, arrival_time: arrival time}`, with the
time values numeric and cast directly to `f32` on export. -/
structure AgentTransfer where
  start_idx : Nat
  end_idx : Nat
  timestamp : Rat
  arrival_time : Rat
deriving DecidableEq

/-- Association-list lookup, model of `HashMap::get` /indexing on the
modelled maps. -/
def alistLookup {α β : Type} [DecidableEq α] : List (α × β) → α → Option β
  | [], _ => none
  | (k, v) :: rest, key => if k = key then some v else alistLookup rest key

/-- Model of the `DataExportError` enum: its only variant is `IoError`. -/
inductive DataExportError where
  | ioError (msg : String)
deriving DecidableEq

/-- The buffer state built by the `export_shape_file` loop.
`colour_height_trace` is a ghost field recording, for each processed
shape in order, the `(colour, height)` pair the loop resolved for it (the
exact values pushed into `shape_colours` per point and into every third
slot of `shape_points`); it instruments the loop without altering it. -/
structure ShapeState where
  shape_points : List Rat
  shape_start_indices : List Nat
  shape_colours : List Nat
  colour_to_height_map : List (Colour × Rat)
  last_height : Rat
  colour_height_trace : List (Colour × Rat)
deriving DecidableEq

/-- The colour resolution in `export_shape_file`: the first trip of
`gtfs.trips.values()` whose `shape_id` references the shape, then that
trip's route's colour; `none` models the `unwrap()` panics. -/
def resolveColour (gtfs : Gtfs) (shape_id : String) : Option Colour :=
  match gtfs.trips.find? (fun trip => trip.shape_id == some shape_id) with
  | none => none
  | some trip =>
    match alistLookup gtfs.routes trip.route_id with
    | none => none
    | some route => some route.color

/-- The height determination in `export_shape_file`: a cached height from
`colour_to_height_map`, or `last_height + 10` freshly inserted.  Returns
(height, updated map, updated `last_height`). -/
def heightFor (st : ShapeState) (colour : Colour) : Rat × List (Colour × Rat) × Rat :=
  match alistLookup st.colour_to_height_map colour with
  | some h => (h, st.colour_to_height_map, st.last_height)
  | none =>
    (st.last_height + 10, (colour, st.last_height + 10) :: st.colour_to_height_map,
      st.last_height + 10)

/-- One iteration of the `export_shape_file` loop: resolve the colour,
determine the height, record the start index (` shape_points.len() as
u32 / 3` before appending), then append per point `(lon, lat, height)`
to the point buffer and `(r, g, b)` to the colour buffer. -/
def processShape (gtfs : Gtfs) (st : ShapeState) (entry : String × List ShapePoint) :
    Option ShapeState :=
  match resolveColour gtfs entry.1 with
  | none => none
  | some colour =>
    let hml := heightFor st colour
    some { shape_points := st.shape_points
            ++ entry.2.flatMap (fun p => [p.longitude, p.latitude, hml.1])
         , shape_start_indices := st.shape_start_indices
            ++ [st.shape_points.length % 4294967296 / 3]
         , shape_colours := st.shape_colours
            ++ entry.2.flatMap (fun _ => [colour.r, colour.g, colour.b])
         , colour_to_height_map := hml.2.1
         , last_height := hml.2.2
         , colour_height_trace := st.colour_height_trace ++ [(colour, hml.1)] }

/-- The empty buffer state at the start of `export_shape_file`
(`last_height = 0.`). -/
def initShapeState : ShapeState :=
  ⟨[], [], [], [], 0, []⟩

/-- The `for (shape_id, shape) in gtfs.shapes.iter()` loop. -/
def shapeLoop (gtfs : Gtfs) : ShapeState → List (String × List ShapePoint) → Option ShapeState
  | st, [] => some st
  | st, entry :: rest =>
    match processShape gtfs st entry with
    | none => none
    | some st2 => shapeLoop gtfs st2 rest

/-- The buffers built by `export_shape_file` before the `write_bin` call
(`none` models a panic in the loop). -/
def shapeExport (gtfs : Gtfs) : Option ShapeState :=
  shapeLoop gtfs initShapeState gtfs.shapes

/-- `bytemuck::must_cast_slice` on a `Vec<u32>` (little-endian host):
each value as four little-endian bytes. -/
def u32ListBytes (l : List Nat) : List Nat :=
  (l.map u32ToLeBytes).flatten

/-- Model of `export_shape_file`: the bytes of the file written by its
`write_bin` call, with chunks `[points, start_indices, colours]`.
`serF64` is the per-value byte serialization that
`bytemuck::must_cast_slice` applies to the `f64` point buffer. -/
def export_shape_file_bytes (serF64 : Rat → List Nat) (gtfs : Gtfs) : Option (List Nat) :=
  match shapeExport gtfs with
  | none => none
  | some st =>
    some (write_bin [st.shape_points.flatMap serF64,
      u32ListBytes st.shape_start_indices, st.shape_colours])

/-- The stop-point precalculation of `export_agent_transfers`: for each
network stop index in order, the gtfs stop's `(longitude, latitude)`;
`none` models the indexing/`unwrap()` panics. -/
def stopPoints (gtfs : Gtfs) (network : Network) : Option (List (Rat × Rat)) :=
  network.stop_ids.mapM (fun stop_id =>
    match alistLookup gtfs.stops stop_id with
    | none => none
    | some stop =>
      match stop.longitude, stop.latitude with
      | some lon, some lat => some (lon, lat)
      | _, _ => none)

/-- The buffers built by the `export_agent_transfers` loop. -/
structure TransferBuffers where
  points : List Rat
  start_indices : List Nat
  timestamps : List Rat
  colours : List Nat
deriving DecidableEq

/-- One iteration of the `export_agent_transfers` loop: record the start
index (`points.len() as u32 / 3` before appending), append the start and
end stop's `(lon, lat, 100.)`, the two timestamps cast to `f32`, and the
purple colour bytes `(0xA0, 0x20, 0xF0)` once per point; `none` models
the panic of out-of-range `stop_points` indexing. -/
def processTransfer (sp : List (Rat × Rat)) (bufs : TransferBuffers) (t : AgentTransfer) :
    Option TransferBuffers :=
  match sp.get? t.start_idx, sp.get? t.end_idx with
  | some s, some e =>
    some { points := bufs.points ++ [s.1, s.2, 100, e.1, e.2, 100]
         , start_indices := bufs.start_indices
            ++ [bufs.points.length % 4294967296 / 3]
         , timestamps := bufs.timestamps ++ [t.timestamp, t.arrival_time]
         , colours := bufs.colours ++ [160, 32, 240, 160, 32, 240] }
  | _, _ => none

/-- The `for transfer in agent_transfers` loop. -/
def transferLoop (sp : List (Rat × Rat)) :
    TransferBuffers → List AgentTransfer → Option TransferBuffers
  | bufs, [] => some bufs
  | bufs, t :: rest =>
    match processTransfer sp bufs t with
    | none => none
    | some bufs2 => transferLoop sp bufs2 rest

/-- The buffers built by `export_agent_transfers` before its `write_bin`
call. -/
def exportTransfersBuffers (gtfs : Gtfs) (network : Network)
    (agent_transfers : List AgentTransfer) : Option TransferBuffers :=
  match stopPoints gtfs network with
  | none => none
  | some sp => transferLoop sp ⟨[], [], [], []⟩ agent_transfers

/-- Model of `export_agent_transfers`: the bytes of the file written by
its `write_bin` call, with chunks
`[points, start_indices, timestamps, colours]`.  `serF64`/`serF32` are
the per-value byte serializations `bytemuck::must_cast_slice` applies to
the `f64` point buffer and the `f32` timestamp buffer. -/
def export_agent_transfers_file (serF64 serF32 : Rat → List Nat) (gtfs : Gtfs)
    (network : Network) (agent_transfers : List AgentTransfer) : Option (List Nat) :=
  match exportTransfersBuffers gtfs network agent_transfers with
  | none => none
  | some bufs =>
    some (write_bin [bufs.points.flatMap serF64, u32ListBytes bufs.start_indices,
      bufs.timestamps.flatMap serF32, bufs.colours])

/-- The distinct colours of a list in order of first encounter. -/
def distinctFirst : List Colour → List Colour
  | [] => []
  | c :: cs => c :: (distinctFirst cs).filter (fun d => d ≠ c)

/-- The 0-based encounter rank of a colour in a list of distinct
colours. -/
def rankIn : List Colour → Colour → Nat
  | [], _ => 0
  | d :: ds, c => if d = c then 0 else rankIn ds c + 1

/-- Closed form of the start-index table produced by the export loops
when the point buffer already holds `base` values: each element of
`sizes` points, then contributes 3 buffer values per point. -/
def startIndicesFrom (base : Nat) : List Nat → List Nat
  | [] => []
  | s :: rest => base % 4294967296 / 3 :: startIndicesFrom (base + 3 * s) rest

/-- The invariant the `export_shape_file` loop maintains between
`colour_to_height_map`, `last_height` and the processed shapes' resolved
colours: writing `F` for the distinct resolved colours in first-encounter
order, the map sends exactly the colours of `F` to `10 * (rank + 1)`,
`last_height` is `10 * |F|`, and every processed shape received the
height of its colour. -/
def MapInv (st : ShapeState) : Prop :=
  (∀ c, c ∈ distinctFirst (st.colour_height_trace.map Prod.fst) →
    alistLookup st.colour_to_height_map c
      = some (10 * ((rankIn (distinctFirst (st.colour_height_trace.map Prod.fst)) c : Rat) + 1)))
  ∧ (∀ c, c ∉ distinctFirst (st.colour_height_trace.map Prod.fst) →
    alistLookup st.colour_to_height_map c = none)
  ∧ st.last_height = 10 * ((distinctFirst (st.colour_height_trace.map Prod.fst)).length : Rat)
  ∧ (∀ p ∈ st.colour_height_trace,
      p.2 = 10 * ((rankIn (distinctFirst (st.colour_height_trace.map Prod.fst)) p.1 : Rat) + 1))

/-- A concrete GTFS input: two shapes on the same red route. -/
def gtfsRed : Gtfs :=
  { shapes := [("s1", [⟨1, 2⟩]), ("s2", [⟨3, 4⟩])]
  , trips := [⟨some "s1", "r1"⟩, ⟨some "s2", "r1"⟩]
  , routes := [("r1", ⟨⟨255, 0, 0⟩⟩)]
  , stops := [] }

/-- The buffer state `export_shape_file` computes on `gtfsRed` (heights
written un-normalised, exactly as the loop computes them). -/
def stRed : ShapeState :=
  { shape_points := [1, 2, 0 + 10, 3, 4, 0 + 10]
  , shape_start_indices := [0, 1]
  , shape_colours := [255, 0, 0, 255, 0, 0]
  , colour_to_height_map := [(⟨255, 0, 0⟩, 0 + 10)]
  , last_height := 0 + 10
  , colour_height_trace := [(⟨255, 0, 0⟩, 0 + 10), (⟨255, 0, 0⟩, 0 + 10)] }

/-- A concrete two-stop GTFS input for the transfer exporter. -/
def gtfsStops : Gtfs :=
  { shapes := []
  , trips := []
  , routes := []
  , stops := [("a", ⟨some 1, some 2⟩), ("b", ⟨some 3, some 4⟩)] }

/-- A two-stop network over `gtfsStops`. -/
def netAB : Network :=
  ⟨["a", "b"]⟩

/-- The buffers `export_agent_transfers` computes on `gtfsStops`/`netAB`
for the single transfer `{start_idx: 0, end_idx: 1, timestamp: 100,
arrival_time: 220}`. -/
def bufsAB : TransferBuffers :=
  { points := [1, 2, 100, 3, 4, 100]
  , start_indices := [0]
  , timestamps := [100, 220]
  , colours := [160, 32, 240, 160, 32, 240] }

/-- A GTFS input with a shape that no trip references. -/
def gtfsOrphan : Gtfs :=
  { shapes := [("s", [])], trips := [], routes := [], stops := [] }

/-- Two one-point shapes on differently coloured routes, red shape
first: one of the iteration orders a `HashMap` over `{s1, s2}` can
produce. -/
def gtfsOrderA : Gtfs :=
  { shapes := [("s1", [⟨1, 2⟩]), ("s2", [⟨3, 4⟩])]
  , trips := [⟨some "s1", "r1"⟩, ⟨some "s2", "r2"⟩]
  , routes := [("r1", ⟨⟨255, 0, 0⟩⟩), ("r2", ⟨⟨0, 0, 255⟩⟩)]
  , stops := [] }

/-- The same GTFS data with the other iteration order of the two
shapes. -/
def gtfsOrderB : Gtfs :=
  { shapes := [("s2", [⟨3, 4⟩]), ("s1", [⟨1, 2⟩])]
  , trips := [⟨some "s1", "r1"⟩, ⟨some "s2", "r2"⟩]
  , routes := [("r1", ⟨⟨255, 0, 0⟩⟩), ("r2", ⟨⟨0, 0, 255⟩⟩)]
  , stops := [] }

/-- The buffer state the exporter computes on `gtfsOrderA` (red gets
height 10, blue 20; heights written un-normalised). -/
def stOrderA : ShapeState :=
  { shape_points := [1, 2, 0 + 10, 3, 4, 0 + 10 + 10]
  , shape_start_indices := [0, 1]
  , shape_colours := [255, 0, 0, 0, 0, 255]
  , colour_to_height_map := [(⟨0, 0, 255⟩, 0 + 10 + 10), (⟨255, 0, 0⟩, 0 + 10)]
  , last_height := 0 + 10 + 10
  , colour_height_trace := [(⟨255, 0, 0⟩, 0 + 10), (⟨0, 0, 255⟩, 0 + 10 + 10)] }

/-- The buffer state the exporter computes on `gtfsOrderB` (blue gets
height 10, red 20). -/
def stOrderB : ShapeState :=
  { shape_points := [3, 4, 0 + 10, 1, 2, 0 + 10 + 10]
  , shape_start_indices := [0, 1]
  , shape_colours := [0, 0, 255, 255, 0, 0]
  , colour_to_height_map := [(⟨255, 0, 0⟩, 0 + 10 + 10), (⟨0, 0, 255⟩, 0 + 10)]
  , last_height := 0 + 10 + 10
  , colour_height_trace := [(⟨0, 0, 255⟩, 0 + 10), (⟨255, 0, 0⟩, 0 + 10 + 10)] }

/-- The entirely empty GTFS input. -/
def emptyGtfs : Gtfs :=
  { shapes := [], trips := [], routes := [], stops := [] }

/-- The network with no stops. -/
def emptyNet : Network :=
  ⟨[]⟩

/-- The 24-byte file `export_shape_file` writes for zero shapes: three
header entries, each with offset 24 and length 0, and no data region. -/
def shapeEmptyFile : List Nat :=
  [24, 0, 0, 0, 0, 0, 0, 0, 24, 0, 0, 0, 0, 0, 0, 0, 24, 0, 0, 0, 0, 0, 0, 0]

/-- The 32-byte file `export_agent_transfers` writes for an empty
transfer list: four header entries, each with offset 32 and length 0,
and no data region. -/
def transferEmptyFile : List Nat :=
  [32, 0, 0, 0, 0, 0, 0, 0, 32, 0, 0, 0, 0, 0, 0, 0,
   32, 0, 0, 0, 0, 0, 0, 0, 32, 0, 0, 0, 0, 0, 0, 0]

lemma len_le_round_up (n : Nat) : n ≤ round_up_to_eight n := by
  unfold round_up_to_eight; omega

lemma writeBinHeader_length (C : List (List Nat)) :
    ∀ index, (writeBinHeader index C).length = 8 * C.length := by
  induction C with
  | nil => intro index; simp [writeBinHeader]
  | cons d rest ih =>
    intro index
    simp [writeBinHeader, u32ToLeBytes, ih]
    omega

lemma writeBinData_length (C : List (List Nat)) :
    (writeBinData C).length = paddedSum C := by
  induction C with
  | nil => simp [writeBinData, paddedSum]
  | cons d rest ih =>
    have h := len_le_round_up d.length
    simp [writeBinData, paddedSum] at ih ⊢
    omega

lemma paddedSum_append (A B : List (List Nat)) :
    paddedSum (A ++ B) = paddedSum A + paddedSum B := by
  simp [paddedSum]

lemma getD_drop (l : List Nat) (pos k : Nat) :
    (l.drop pos).getD k 0 = l.getD (pos + k) 0 := by
  induction pos generalizing l with
  | zero => simp
  | succ p ih =>
    cases l with
    | nil => simp
    | cons a t =>
      rw [List.drop_succ_cons, ih t, show p + 1 + k = (p + k) + 1 by omega,
        List.getD_cons_succ]

lemma readU32_drop (l : List Nat) (pos : Nat) :
    readU32 l pos = readU32 (l.drop pos) 0 := by
  simp [readU32, getD_drop]

lemma writeBinHeader_drop (i : Nat) :
    ∀ (C : List (List Nat)) (index : Nat),
      (writeBinHeader index C).drop (8 * i)
        = writeBinHeader (index + paddedSum (C.take i)) (C.drop i) := by
  induction i with
  | zero => intro C index; simp [paddedSum]
  | succ n ih =>
    intro C index
    cases C with
    | nil => simp [writeBinHeader]
    | cons d rest =>
      have hstep :
          (writeBinHeader index (d :: rest)).drop (8 * (n + 1))
            = (writeBinHeader (index + round_up_to_eight d.length) rest).drop (8 * n) := by
        show (u32ToLeBytes index ++ u32ToLeBytes d.length
            ++ writeBinHeader (index + round_up_to_eight d.length) rest).drop (8 * (n + 1))
          = _
        rw [show 8 * (n + 1) = 8 + 8 * n by omega, ← List.drop_drop]
        simp [u32ToLeBytes]
      rw [hstep, ih rest (index + round_up_to_eight d.length)]
      congr 1
      simp [paddedSum]
      omega

lemma drop_eq_cons_getD {α : Type} (d : α) (C : List α) :
    ∀ i, i < C.length → C.drop i = C.getD i d :: C.drop (i + 1) := by
  induction C with
  | nil => intro i h; simp at h
  | cons d rest ih =>
    intro i h
    cases i with
    | zero => simp
    | succ n =>
      have := ih n (by simpa using h)
      simpa using this

lemma readU32_header_offset (C : List (List Nat)) (index i : Nat)
    (h : i < C.length) :
    readU32 (writeBinHeader index C) (8 * i)
      = (index + paddedSum (C.take i)) % 4294967296 := by
  rw [readU32_drop, writeBinHeader_drop i C index, drop_eq_cons_getD [] C i h]
  simp [writeBinHeader, u32ToLeBytes, readU32]
  omega

lemma readU32_header_length (C : List (List Nat)) (index i : Nat)
    (h : i < C.length) :
    readU32 (writeBinHeader index C) (8 * i + 4)
      = (C.getD i []).length % 4294967296 := by
  rw [readU32_drop, ← List.drop_drop,
    writeBinHeader_drop i C index, drop_eq_cons_getD [] C i h]
  simp [writeBinHeader, u32ToLeBytes, readU32, getD_drop]
  omega

lemma paddedSum_take_add_drop (C : List (List Nat)) (i : Nat) :
    paddedSum (C.take i) + paddedSum (C.drop i) = paddedSum C := by
  rw [← paddedSum_append, List.take_append_drop]

lemma paddedSum_take_le (C : List (List Nat)) (i : Nat) :
    paddedSum (C.take i) ≤ paddedSum C := by
  have := paddedSum_take_add_drop C i
  omega

lemma paddedSum_take_succ (C : List (List Nat)) (i : Nat) (h : i < C.length) :
    paddedSum (C.take (i + 1))
      = paddedSum (C.take i) + round_up_to_eight (C.getD i []).length := by
  have htake : C.take (i + 1) = C.take i ++ [C.getD i []] := by
    rw [List.take_succ]
    congr 1
    rw [List.getD_eq_getD_get?, List.get?_eq_getElem?]
    cases hg : C[i]? with
    | none => rw [List.getElem?_eq_none_iff] at hg; omega
    | some v => simp
  rw [htake, paddedSum_append]
  simp [paddedSum]

lemma round_up_getD_le_paddedSum_drop (C : List (List Nat)) (i : Nat)
    (h : i < C.length) :
    round_up_to_eight (C.getD i []).length ≤ paddedSum (C.drop i) := by
  rw [drop_eq_cons_getD [] C i h]
  simp [paddedSum]

lemma readU32_append_left (xs ys : List Nat) (pos : Nat) (h : pos + 4 ≤ xs.length) :
    readU32 (xs ++ ys) pos = readU32 xs pos := by
  unfold readU32
  rw [List.getD_append _ _ _ _ (by omega), List.getD_append _ _ _ _ (by omega),
    List.getD_append _ _ _ _ (by omega), List.getD_append _ _ _ _ (by omega)]

lemma writeBinData_drop (i : Nat) :
    ∀ C : List (List Nat),
      (writeBinData C).drop (paddedSum (C.take i)) = writeBinData (C.drop i) := by
  induction i with
  | zero => intro C; simp [paddedSum]
  | succ n ih =>
    intro C
    cases C with
    | nil => simp [writeBinData, paddedSum]
    | cons d rest =>
      have hsum : paddedSum ((d :: rest).take (n + 1))
          = round_up_to_eight d.length + paddedSum (rest.take n) := by
        simp [paddedSum]
      rw [hsum, List.drop_succ_cons, ← ih rest]
      show (d ++ List.replicate (round_up_to_eight d.length - d.length) 0
          ++ writeBinData rest).drop (round_up_to_eight d.length + paddedSum (rest.take n)) = _
      set Y := d ++ List.replicate (round_up_to_eight d.length - d.length) 0 with hYdef
      have hlen : round_up_to_eight d.length = Y.length := by
        rw [hYdef]
        have := len_le_round_up d.length
        simp
        omega
      rw [hlen, List.drop_append]

lemma write_bin_drop_header (C : List (List Nat)) :
    (write_bin C).drop (8 * C.length) = writeBinData C := by
  unfold write_bin
  have hH := writeBinHeader_length C (C.length * 2 * 4)
  rw [← hH, List.drop_left]

lemma write_bin_getD_data (C : List (List Nat)) (m : Nat) :
    (write_bin C).getD (8 * C.length + m) 0 = (writeBinData C).getD m 0 := by
  rw [← getD_drop, write_bin_drop_header]

lemma getD_append_right_len (xs ys : List Nat) (k : Nat) :
    (xs ++ ys).getD (xs.length + k) 0 = ys.getD k 0 := by
  rw [← getD_drop, List.drop_left]

lemma getD_replicate_zero (m : Nat) : ∀ k, (List.replicate m (0 : Nat)).getD k 0 = 0 := by
  induction m with
  | zero => intro k; simp
  | succ n ih =>
    intro k
    cases k with
    | zero => simp [List.replicate_succ]
    | succ kk => simp [List.replicate_succ, ih]

lemma headerOffset_write_bin (C : List (List Nat))
    (hov : 8 * C.length + paddedSum C < 4294967296) (i : Nat) (hi : i < C.length) :
    headerOffset (write_bin C) i = 8 * C.length + paddedSum (C.take i) := by
  have hH := writeBinHeader_length C (C.length * 2 * 4)
  unfold headerOffset write_bin
  rw [readU32_append_left _ _ _ (by rw [hH]; omega),
    readU32_header_offset C _ i hi]
  have h1 : paddedSum (C.take i) ≤ paddedSum C := paddedSum_take_le C i
  rw [Nat.mod_eq_of_lt (by omega)]
  omega

lemma headerLength_write_bin (C : List (List Nat))
    (hov : 8 * C.length + paddedSum C < 4294967296) (i : Nat) (hi : i < C.length) :
    headerLength (write_bin C) i = (C.getD i []).length := by
  have hH := writeBinHeader_length C (C.length * 2 * 4)
  have h1 : (C.getD i []).length ≤ paddedSum C := by
    have h2 := round_up_getD_le_paddedSum_drop C i hi
    have h3 := paddedSum_take_add_drop C i
    have h4 := len_le_round_up (C.getD i []).length
    omega
  unfold headerLength write_bin
  rw [readU32_append_left _ _ _ (by rw [hH]; omega),
    readU32_header_length C _ i hi, Nat.mod_eq_of_lt (by omega)]

lemma write_bin_data_region (C : List (List Nat)) (i : Nat) (hi : i < C.length) :
    (write_bin C).drop (8 * C.length + paddedSum (C.take i))
      = C.getD i []
        ++ List.replicate
            (round_up_to_eight (C.getD i []).length - (C.getD i []).length) 0
        ++ writeBinData (C.drop (i + 1)) := by
  rw [← List.drop_drop, write_bin_drop_header, writeBinData_drop i C,
    drop_eq_cons_getD [] C i hi]
  rfl

/-- C1. For every chunk list `C`, `write_bin` produces a file whose total
byte length equals `header_size + sum(round_up_to_8(len(c)) for c in C)`
with `header_size = count(chunks) * 8`; in particular the empty chunk
list produces a file of length 0. -/
theorem write_bin_total_length (C : List (List Nat)) :
    (write_bin C).length = C.length * 8 + paddedSum C
      ∧ (write_bin ([] : List (List Nat))).length = 0 := by
  refine ⟨?_, by simp [write_bin, writeBinHeader, writeBinData]⟩
  simp [write_bin, writeBinHeader_length, writeBinData_length]
  omega

/-- C2. For every chunk list, the header written by `write_bin` (read back
as little-endian u32 pairs) satisfies: `offset[0]` equals the header size
`count * 8`; each `length[i]` is the chunk's unpadded byte length;
`offset[i+1] = offset[i] + round_up_to_8(length[i])`; and every byte of
the file in `[offset[i]+length[i], offset[i+1])` is zero padding.  The
hypothesis is the source's documented precondition that header plus
padded data fit in a 32-bit offset. -/
theorem write_bin_header_invariants (C : List (List Nat))
    (hov : 8 * C.length + paddedSum C < 4294967296) :
    (0 < C.length → headerOffset (write_bin C) 0 = C.length * 8)
    ∧ (∀ i, i < C.length → headerLength (write_bin C) i = (C.getD i []).length)
    ∧ (∀ i, i + 1 < C.length →
        headerOffset (write_bin C) (i + 1)
          = headerOffset (write_bin C) i
            + round_up_to_eight (headerLength (write_bin C) i))
    ∧ (∀ i j, i + 1 < C.length →
        headerOffset (write_bin C) i + headerLength (write_bin C) i ≤ j →
        j < headerOffset (write_bin C) (i + 1) →
        (write_bin C).getD j 0 = 0) := by
  refine ⟨?_, ?_, ?_, ?_⟩
  · intro h0
    rw [headerOffset_write_bin C hov 0 h0]
    simp [paddedSum]
    omega
  · intro i hi
    exact headerLength_write_bin C hov i hi
  · intro i hi1
    have hi : i < C.length := by omega
    rw [headerOffset_write_bin C hov (i + 1) hi1, headerOffset_write_bin C hov i hi,
      headerLength_write_bin C hov i hi, paddedSum_take_succ C i hi]
    omega
  · intro i j hi1 hj1 hj2
    have hi : i < C.length := by omega
    have hle := len_le_round_up (C.getD i []).length
    rw [headerOffset_write_bin C hov i hi, headerLength_write_bin C hov i hi] at hj1
    rw [headerOffset_write_bin C hov (i + 1) hi1, paddedSum_take_succ C i hi] at hj2
    obtain ⟨m, hjm, hm2⟩ :
        ∃ m, j = 8 * C.length + (paddedSum (C.take i) + ((C.getD i []).length + m))
          ∧ (C.getD i []).length + m < round_up_to_eight (C.getD i []).length :=
      ⟨j - (8 * C.length + paddedSum (C.take i) + (C.getD i []).length),
        by omega, by omega⟩
    subst hjm
    rw [write_bin_getD_data, ← getD_drop, writeBinData_drop i C,
      drop_eq_cons_getD [] C i hi]
    show ((C.getD i []
        ++ List.replicate
            (round_up_to_eight (C.getD i []).length - (C.getD i []).length) 0)
        ++ writeBinData (C.drop (i + 1))).getD ((C.getD i []).length + m) 0 = 0
    rw [List.getD_append _ _ _ _
        (by rw [List.length_append, List.length_replicate]; omega),
      getD_append_right_len]
    exact getD_replicate_zero _ _

/-- C2 witness: the theorem applied to the concrete chunk list
`[[1,2,3],[4,5]]`. -/
theorem write_bin_header_invariants_witness :
    (8 * ([[1, 2, 3], [4, 5]] : List (List Nat)).length
        + paddedSum [[1, 2, 3], [4, 5]] < 4294967296)
      ∧ headerOffset (write_bin [[1, 2, 3], [4, 5]]) 1
          = headerOffset (write_bin [[1, 2, 3], [4, 5]]) 0
            + round_up_to_eight (headerLength (write_bin [[1, 2, 3], [4, 5]]) 0) :=
  ⟨by decide,
    (write_bin_header_invariants [[1, 2, 3], [4, 5]] (by decide)).2.2.1 0 (by decide)⟩

/-- C3. Round-trip: for every chunk list (whose padded size respects the
32-bit precondition), slicing the file produced by `write_bin` at byte
range `[offset[i], offset[i]+length[i])` recovers chunk `i` byte for
byte. -/
theorem write_bin_round_trip (C : List (List Nat))
    (hov : 8 * C.length + paddedSum C < 4294967296) (i : Nat) (hi : i < C.length) :
    ((write_bin C).drop (headerOffset (write_bin C) i)).take
        (headerLength (write_bin C) i) = C.getD i [] := by
  rw [headerOffset_write_bin C hov i hi, headerLength_write_bin C hov i hi,
    write_bin_data_region C i hi, List.append_assoc]
  exact List.take_left _ _

/-- C3 witness: slicing chunk 1 out of the file for `[[1,2,3],[4,5]]`. -/
theorem write_bin_round_trip_witness :
    (8 * ([[1, 2, 3], [4, 5]] : List (List Nat)).length
        + paddedSum [[1, 2, 3], [4, 5]] < 4294967296)
      ∧ ((write_bin [[1, 2, 3], [4, 5]]).drop
            (headerOffset (write_bin [[1, 2, 3], [4, 5]]) 1)).take
          (headerLength (write_bin [[1, 2, 3], [4, 5]]) 1) = [4, 5] :=
  ⟨by decide, write_bin_round_trip [[1, 2, 3], [4, 5]] (by decide) 1 (by decide)⟩

/-- C4 counterexample: for the chunks `[b"AB", b"CDEFG"]` the file length
is not 40 (the 16-byte header is followed by two 8-byte padded chunks,
32 bytes in total). -/
theorem write_bin_demo_length_ne_40 :
    (write_bin [[65, 66], [67, 68, 69, 70, 71]]).length ≠ 40 := by decide

/-- C4 (amended): for the chunks `[b"AB", b"CDEFG"]` the output has a
16-byte header with chunk 0 at offset 16 / length 2 and chunk 1 at
offset 24 / length 5, the data region is "AB" + 6 zero bytes then
"CDEFG" + 3 zero bytes, and the total file length is 32 bytes. -/
theorem write_bin_demo_layout :
    headerOffset (write_bin [[65, 66], [67, 68, 69, 70, 71]]) 0 = 16
      ∧ headerLength (write_bin [[65, 66], [67, 68, 69, 70, 71]]) 0 = 2
      ∧ headerOffset (write_bin [[65, 66], [67, 68, 69, 70, 71]]) 1 = 24
      ∧ headerLength (write_bin [[65, 66], [67, 68, 69, 70, 71]]) 1 = 5
      ∧ write_bin [[65, 66], [67, 68, 69, 70, 71]]
          = [16, 0, 0, 0, 2, 0, 0, 0, 24, 0, 0, 0, 5, 0, 0, 0,
             65, 66, 0, 0, 0, 0, 0, 0, 67, 68, 69, 70, 71, 0, 0, 0]
      ∧ (write_bin [[65, 66], [67, 68, 69, 70, 71]]).length = 32 := by
  decide

lemma mem_distinctFirst (c : Colour) : ∀ xs : List Colour, c ∈ distinctFirst xs ↔ c ∈ xs := by
  intro xs
  induction xs with
  | nil => simp [distinctFirst]
  | cons x t ih =>
    simp only [distinctFirst, List.mem_cons, List.mem_filter, ih, decide_eq_true_eq]
    constructor
    · rintro (h | ⟨h1, h2⟩)
      · exact Or.inl h
      · exact Or.inr h1
    · rintro (h | h1)
      · exact Or.inl h
      · by_cases hcx : c = x
        · exact Or.inl hcx
        · exact Or.inr ⟨h1, hcx⟩

lemma distinctFirst_append_singleton (c : Colour) :
    ∀ xs : List Colour,
      distinctFirst (xs ++ [c])
        = if c ∈ distinctFirst xs then distinctFirst xs
          else distinctFirst xs ++ [c] := by
  intro xs
  induction xs with
  | nil => simp [distinctFirst]
  | cons x t ih =>
    by_cases h1 : c ∈ distinctFirst t
    · have hc : c ∈ distinctFirst (x :: t) := by
        simp only [distinctFirst, List.mem_cons, List.mem_filter, decide_eq_true_eq]
        by_cases hcx : c = x
        · exact Or.inl hcx
        · exact Or.inr ⟨h1, hcx⟩
      rw [if_pos hc]
      show distinctFirst (x :: (t ++ [c])) = _
      simp only [distinctFirst]
      rw [ih, if_pos h1]
    · by_cases hcx : c = x
      · have hc : c ∈ distinctFirst (x :: t) := by
          simp only [distinctFirst, List.mem_cons]
          exact Or.inl hcx
        rw [if_pos hc]
        show distinctFirst (x :: (t ++ [c])) = _
        simp only [distinctFirst]
        rw [ih, if_neg h1]
        simp [List.filter_append, hcx]
      · have hc : c ∉ distinctFirst (x :: t) := by
          simp only [distinctFirst, List.mem_cons, List.mem_filter, decide_eq_true_eq]
          rintro (h | ⟨h2, _⟩)
          · exact hcx h
          · exact h1 h2
        rw [if_neg hc]
        show distinctFirst (x :: (t ++ [c])) = _
        simp only [distinctFirst]
        rw [ih, if_neg h1]
        simp [List.filter_append, hcx]

lemma rankIn_append_left (c : Colour) :
    ∀ (F G : List Colour), c ∈ F → rankIn (F ++ G) c = rankIn F c := by
  intro F
  induction F with
  | nil => intro G h; simp at h
  | cons d ds ih =>
    intro G h
    by_cases hdc : d = c
    · simp [rankIn, hdc]
    · have hds : c ∈ ds := by
        rcases List.mem_cons.mp h with h1 | h1
        · exact absurd h1.symm hdc
        · exact h1
      simp [rankIn, hdc, ih G hds]

lemma rankIn_append_self (c : Colour) :
    ∀ F : List Colour, c ∉ F → rankIn (F ++ [c]) c = F.length := by
  intro F
  induction F with
  | nil => intro h; simp [rankIn]
  | cons d ds ih =>
    intro h
    have hdc : ¬ d = c := fun he => h (by rw [← he]; exact List.mem_cons_self d ds)
    have hds : c ∉ ds := fun hm => h (List.mem_cons_of_mem d hm)
    simp [rankIn, hdc, ih hds]

lemma initShapeState_inv : MapInv initShapeState := by
  refine ⟨?_, ?_, ?_, ?_⟩
  · intro c hc
    simp [initShapeState, distinctFirst] at hc
  · intro c hc
    simp [initShapeState, alistLookup]
  · simp [initShapeState, distinctFirst]
  · intro p hp
    simp [initShapeState] at hp

lemma processShape_inv (gtfs : Gtfs) (st st2 : ShapeState) (entry : String × List ShapePoint)
    (h : processShape gtfs st entry = some st2) (hinv : MapInv st) : MapInv st2 := by
  obtain ⟨hinv1, hinv2, hinv3, hinv4⟩ := hinv
  cases hrc : resolveColour gtfs entry.1 with
  | none =>
    simp only [processShape, hrc] at h
    exact Option.noConfusion h
  | some colour =>
    simp only [processShape, hrc, Option.some.injEq] at h
    subst h
    cases hlk : alistLookup st.colour_to_height_map colour with
    | some h0 =>
      have hcol : colour ∈ distinctFirst (st.colour_height_trace.map Prod.fst) := by
        by_contra hnc
        rw [hinv2 colour hnc] at hlk
        exact Option.noConfusion hlk
      simp only [MapInv, heightFor, hlk, List.map_append, List.map_cons, List.map_nil,
        distinctFirst_append_singleton colour, if_pos hcol]
      refine ⟨hinv1, hinv2, hinv3, ?_⟩
      intro p hp
      rcases List.mem_append.mp hp with hp1 | hp1
      · exact hinv4 p hp1
      · have hpe : p = (colour, h0) := by simpa using hp1
        subst hpe
        have hs := hinv1 colour hcol
        rw [hlk] at hs
        simpa using Option.some.inj hs
    | none =>
      have hcol : colour ∉ distinctFirst (st.colour_height_trace.map Prod.fst) := by
        intro hc
        rw [hinv1 colour hc] at hlk
        exact Option.noConfusion hlk
      simp only [MapInv, heightFor, hlk, List.map_append, List.map_cons, List.map_nil,
        distinctFirst_append_singleton colour, if_neg hcol]
      set F := distinctFirst (st.colour_height_trace.map Prod.fst) with hF
      have hrankc : rankIn (F ++ [colour]) colour = F.length :=
        rankIn_append_self colour F hcol
      have hnh : st.last_height + 10
          = 10 * ((rankIn (F ++ [colour]) colour : Rat) + 1) := by
        rw [hrankc, hinv3]
        ring
      refine ⟨?_, ?_, ?_, ?_⟩
      · intro c hc
        by_cases hcc : colour = c
        · subst hcc
          simp [alistLookup, hnh]
        · have hcF : c ∈ F := by
            rcases List.mem_append.mp hc with h1 | h1
            · exact h1
            · have h2 : c = colour := by simpa using h1
              exact absurd h2.symm hcc
          simp only [alistLookup, if_neg hcc]
          rw [hinv1 c hcF, rankIn_append_left c F [colour] hcF]
      · intro c hc
        have hcc : ¬ colour = c := by
          intro he
          exact hc (he ▸ List.mem_append_right F (List.mem_singleton_self colour))
        have hcF : c ∉ F := fun h1 => hc (List.mem_append_left [colour] h1)
        simp only [alistLookup, if_neg hcc]
        exact hinv2 c hcF
      · rw [hinv3]
        ring_nf
        simp [List.length_append]
        ring
      · intro p hp
        rcases List.mem_append.mp hp with hp1 | hp1
        · have hpF : p.1 ∈ F := by
            rw [hF, mem_distinctFirst]
            exact List.mem_map_of_mem Prod.fst hp1
          rw [rankIn_append_left p.1 F [colour] hpF]
          exact hinv4 p hp1
        · have hpe : p = (colour, st.last_height + 10) := by simpa using hp1
          subst hpe
          exact hnh

lemma shapeLoop_inv (gtfs : Gtfs) :
    ∀ (L : List (String × List ShapePoint)) (st0 st : ShapeState),
      MapInv st0 → shapeLoop gtfs st0 L = some st → MapInv st := by
  intro L
  induction L with
  | nil =>
    intro st0 st h0 h
    simp only [shapeLoop, Option.some.injEq] at h
    subst h
    exact h0
  | cons e rest ih =>
    intro st0 st h0 h
    simp only [shapeLoop] at h
    cases hp : processShape gtfs st0 e with
    | none => rw [hp] at h; exact Option.noConfusion h
    | some st1 =>
      rw [hp] at h
      exact ih st1 st (processShape_inv gtfs st0 st1 e hp h0) h

/-- C5. In `export_shape_file`, writing `F` for the distinct resolved
route colours in first-encounter order: the colour-to-height map assigns
each colour of `F` the height `10 * (rank + 1)` (so the first distinct
colour gets 10 and each subsequently distinct colour the previous
maximum plus 10); every shape receives the height of its colour; two
shapes sharing a colour receive the same height; and the heights of any
two shapes differ by exactly `10 ×` their colours' encounter-rank
difference. -/
theorem export_shape_colour_heights (gtfs : Gtfs) (st : ShapeState)
    (h : shapeExport gtfs = some st) :
    (∀ c ∈ distinctFirst (st.colour_height_trace.map Prod.fst),
        alistLookup st.colour_to_height_map c
          = some (10 * ((rankIn (distinctFirst (st.colour_height_trace.map Prod.fst)) c : Rat) + 1)))
    ∧ (∀ p ∈ st.colour_height_trace,
        p.2 = 10 * ((rankIn (distinctFirst (st.colour_height_trace.map Prod.fst)) p.1 : Rat) + 1))
    ∧ (∀ p q, p ∈ st.colour_height_trace → q ∈ st.colour_height_trace →
        p.1 = q.1 → p.2 = q.2)
    ∧ (∀ p q, p ∈ st.colour_height_trace → q ∈ st.colour_height_trace →
        p.2 - q.2
          = 10 * ((rankIn (distinctFirst (st.colour_height_trace.map Prod.fst)) p.1 : Rat)
              - (rankIn (distinctFirst (st.colour_height_trace.map Prod.fst)) q.1 : Rat))) := by
  have hinv : MapInv st :=
    shapeLoop_inv gtfs gtfs.shapes initShapeState st initShapeState_inv h
  obtain ⟨h1, h2, h3, h4⟩ := hinv
  refine ⟨h1, h4, ?_, ?_⟩
  · intro p q hp hq hpq
    rw [h4 p hp, h4 q hq, hpq]
  · intro p q hp hq
    rw [h4 p hp, h4 q hq]
    ring

/-- C5 witness: the shape exporter run on `gtfsRed` (two shapes, both on
the red route). -/
theorem export_shape_colour_heights_witness :
    shapeExport gtfsRed = some stRed
      ∧ (∀ p ∈ stRed.colour_height_trace,
          p.2 = 10 * ((rankIn (distinctFirst (stRed.colour_height_trace.map Prod.fst)) p.1 : Rat) + 1)) :=
  ⟨rfl, (export_shape_colour_heights gtfsRed stRed rfl).2.1⟩

lemma flatMap_length_of_const {α β : Type} (f : α → List β) (n : Nat)
    (hf : ∀ a, (f a).length = n) (l : List α) :
    (l.flatMap f).length = n * l.length := by
  induction l with
  | nil => simp
  | cons a t ih =>
    simp [List.flatMap_cons, ih, hf]
    ring

lemma startIndicesFrom_length (sizes : List Nat) :
    ∀ base, (startIndicesFrom base sizes).length = sizes.length := by
  induction sizes with
  | nil => intro base; simp [startIndicesFrom]
  | cons s rest ih => intro base; simp [startIndicesFrom, ih]

lemma startIndicesFrom_getD (sizes : List Nat) :
    ∀ base k, k < sizes.length →
      (startIndicesFrom base sizes).getD k 0
        = (base + 3 * (sizes.take k).sum) % 4294967296 / 3 := by
  induction sizes with
  | nil => intro base k h; simp at h
  | cons s rest ih =>
    intro base k h
    cases k with
    | zero => simp [startIndicesFrom]
    | succ kk =>
      have h2 : kk < rest.length := by simpa using h
      simp only [startIndicesFrom, List.getD_cons_succ]
      rw [ih (base + 3 * s) kk h2]
      have h3 : ((s :: rest).take (kk + 1)).sum = s + (rest.take kk).sum := by
        simp [List.take_succ_cons]
      rw [h3]
      omega

lemma sum_take_le (l : List Nat) (k : Nat) : (l.take k).sum ≤ l.sum := by
  conv_rhs => rw [← List.take_append_drop k l]
  rw [List.sum_append]
  omega

lemma shapeLoop_buffers (gtfs : Gtfs) :
    ∀ (L : List (String × List ShapePoint)) (st0 st : ShapeState),
      shapeLoop gtfs st0 L = some st →
      st.shape_points.length
          = st0.shape_points.length + 3 * (L.map (fun e => e.2.length)).sum
      ∧ st.shape_start_indices
          = st0.shape_start_indices
            ++ startIndicesFrom st0.shape_points.length (L.map (fun e => e.2.length))
      ∧ st.colour_height_trace.length = st0.colour_height_trace.length + L.length := by
  intro L
  induction L with
  | nil =>
    intro st0 st h
    simp only [shapeLoop, Option.some.injEq] at h
    subst h
    simp [startIndicesFrom]
  | cons e rest ih =>
    intro st0 st h
    simp only [shapeLoop] at h
    cases hp : processShape gtfs st0 e with
    | none => rw [hp] at h; exact Option.noConfusion h
    | some st1 =>
      rw [hp] at h
      obtain ⟨ih1, ih2, ih3⟩ := ih st1 st h
      cases hrc : resolveColour gtfs e.1 with
      | none =>
        simp only [processShape, hrc] at hp
        exact Option.noConfusion hp
      | some colour =>
        simp only [processShape, hrc, Option.some.injEq] at hp
        subst hp
        dsimp only at ih1 ih2 ih3
        have hlen3 :
            (e.2.flatMap
              (fun p => [p.longitude, p.latitude, (heightFor st0 colour).1])).length
              = 3 * e.2.length :=
          flatMap_length_of_const
            (fun p => [p.longitude, p.latitude, (heightFor st0 colour).1]) 3
            (fun a => rfl) e.2
        refine ⟨?_, ?_, ?_⟩
        · rw [ih1, List.length_append, hlen3]
          simp only [List.map_cons, List.sum_cons]
          ring
        · rw [ih2, List.length_append, hlen3]
          simp [startIndicesFrom, List.append_assoc]
        · rw [ih3]
          simp [List.length_append]
          omega

lemma transferLoop_buffers (sp : List (Rat × Rat)) :
    ∀ (L : List AgentTransfer) (b0 b : TransferBuffers),
      transferLoop sp b0 L = some b →
      b.points = b0.points
          ++ L.flatMap (fun t =>
            [(sp.getD t.start_idx (0, 0)).1, (sp.getD t.start_idx (0, 0)).2, 100,
             (sp.getD t.end_idx (0, 0)).1, (sp.getD t.end_idx (0, 0)).2, 100])
      ∧ b.start_indices = b0.start_indices
          ++ startIndicesFrom b0.points.length (L.map (fun _ => 2))
      ∧ b.timestamps = b0.timestamps
          ++ L.flatMap (fun t => [t.timestamp, t.arrival_time])
      ∧ b.colours = b0.colours
          ++ L.flatMap (fun _ => [160, 32, 240, 160, 32, 240])
      ∧ (∀ t ∈ L, t.start_idx < sp.length ∧ t.end_idx < sp.length) := by
  intro L
  induction L with
  | nil =>
    intro b0 b h
    simp only [transferLoop, Option.some.injEq] at h
    subst h
    simp [startIndicesFrom]
  | cons t rest ih =>
    intro b0 b h
    simp only [transferLoop] at h
    cases hp : processTransfer sp b0 t with
    | none => rw [hp] at h; exact Option.noConfusion h
    | some b1 =>
      rw [hp] at h
      obtain ⟨ih1, ih2, ih3, ih4, ih5⟩ := ih b1 b h
      cases hs : sp.get? t.start_idx with
      | none =>
        simp only [processTransfer, hs] at hp
        exact Option.noConfusion hp
      | some s =>
        cases he : sp.get? t.end_idx with
        | none =>
          simp only [processTransfer, hs, he] at hp
          exact Option.noConfusion hp
        | some endp =>
          simp only [processTransfer, hs, he, Option.some.injEq] at hp
          subst hp
          dsimp only at ih1 ih2 ih3 ih4
          have hsD : sp.getD t.start_idx (0, 0) = s := by
            simp only [List.getD_eq_getD_get?, hs, Option.getD_some]
          have heD : sp.getD t.end_idx (0, 0) = endp := by
            simp only [List.getD_eq_getD_get?, he, Option.getD_some]
          have hsLt : t.start_idx < sp.length := by
            rcases Nat.lt_or_ge t.start_idx sp.length with hlt | hge
            · exact hlt
            · rw [List.get?_eq_none.mpr hge] at hs
              exact Option.noConfusion hs
          have heLt : t.end_idx < sp.length := by
            rcases Nat.lt_or_ge t.end_idx sp.length with hlt | hge
            · exact hlt
            · rw [List.get?_eq_none.mpr hge] at he
              exact Option.noConfusion he
          refine ⟨?_, ?_, ?_, ?_, ?_⟩
          · rw [ih1, List.flatMap_cons, hsD, heD]
            simp [List.append_assoc]
          · rw [ih2, List.length_append]
            simp [startIndicesFrom, List.append_assoc]
          · rw [ih3]
            simp [List.flatMap_cons, List.append_assoc]
          · rw [ih4]
            simp [List.flatMap_cons, List.append_assoc]
          · intro t2 ht2
            rcases List.mem_cons.mp ht2 with h1 | h1
            · subst h1
              exact ⟨hsLt, heLt⟩
            · exact ih5 t2 h1

lemma flatMap_drop_const {α β : Type} (f : α → List β) (n : Nat)
    (hf : ∀ a, (f a).length = n) :
    ∀ (k : Nat) (L : List α), (L.flatMap f).drop (n * k) = (L.drop k).flatMap f := by
  intro k
  induction k with
  | zero => intro L; simp
  | succ kk ih =>
    intro L
    cases L with
    | nil => simp
    | cons a rest =>
      calc ((a :: rest).flatMap f).drop (n * (kk + 1))
          = (f a ++ rest.flatMap f).drop ((f a).length + n * kk) := by
            rw [List.flatMap_cons]
            congr 1
            rw [hf a]
            ring
        _ = (rest.flatMap f).drop (n * kk) := by rw [List.drop_append]
        _ = ((a :: rest).drop (kk + 1)).flatMap f := by rw [ih rest]; simp

lemma flatMap_take_head {α β : Type} (f : α → List β) (n : Nat)
    (hf : ∀ a, (f a).length = n) (L : List α) (k : Nat) (hk : k < L.length) (d : α) :
    ((L.flatMap f).drop (n * k)).take n = f (L.getD k d) := by
  rw [flatMap_drop_const f n hf k L, drop_eq_cons_getD d L k hk, List.flatMap_cons,
    ← hf (L.getD k d), List.take_left]

lemma getD_mem_of_lt {α : Type} (l : List α) (k : Nat) (d : α) (h : k < l.length) :
    l.getD k d ∈ l := by
  have h2 : l.getD k d ∈ l.drop k := by
    rw [drop_eq_cons_getD d l k h]
    exact List.mem_cons_self _ _
  exact List.mem_of_mem_drop h2

lemma flatMap_six_flatten (L : List AgentTransfer) :
    L.flatMap (fun _ => ([160, 32, 240, 160, 32, 240] : List Nat))
      = List.flatten (List.replicate (2 * L.length) [160, 32, 240]) := by
  induction L with
  | nil => simp
  | cons t rest ih =>
    have h2 : 2 * ((t :: rest).length) = 2 * rest.length + 1 + 1 := by
      simp [List.length_cons]
      ring
    rw [List.flatMap_cons, ih, h2, List.replicate_succ, List.replicate_succ,
      List.flatten_cons, List.flatten_cons]
    simp

lemma map_const_two_sum (L : List AgentTransfer) :
    ∀ k, k ≤ L.length → ((L.map (fun _ => 2)).take k).sum = 2 * k := by
  induction L with
  | nil =>
    intro k h
    have hk : k = 0 := Nat.le_zero.mp (by simpa using h)
    subst hk
    simp
  | cons t rest ih =>
    intro k h
    cases k with
    | zero => simp
    | succ kk =>
      have h2 : kk ≤ rest.length := by simpa using h
      simp [List.take_succ_cons, ih kk h2]
      omega

/-- C6. In both exporters the start-index table has exactly one `u32`
entry per exported element, its first entry is 0, and entry `k` is the
number of points appended before element `k` (each shape contributes its
point count, each transfer 2 points), provided the point buffer is below
the `u32` truncation bound of the `as u32` cast. -/
theorem export_start_index_tables :
    (∀ (gtfs : Gtfs) (st : ShapeState), shapeExport gtfs = some st →
      st.shape_points.length < 4294967296 →
      st.shape_start_indices.length = gtfs.shapes.length
      ∧ (0 < gtfs.shapes.length → st.shape_start_indices.getD 0 0 = 0)
      ∧ (∀ k, k < gtfs.shapes.length →
          st.shape_start_indices.getD k 0
            = ((gtfs.shapes.take k).map (fun e => e.2.length)).sum))
    ∧ (∀ (gtfs : Gtfs) (network : Network) (transfers : List AgentTransfer)
        (bufs : TransferBuffers),
        exportTransfersBuffers gtfs network transfers = some bufs →
        bufs.points.length < 4294967296 →
        bufs.start_indices.length = transfers.length
        ∧ (0 < transfers.length → bufs.start_indices.getD 0 0 = 0)
        ∧ (∀ k, k < transfers.length → bufs.start_indices.getD k 0 = 2 * k)) := by
  constructor
  · intro gtfs st h hbound
    obtain ⟨hb1, hb2, hb3⟩ := shapeLoop_buffers gtfs gtfs.shapes initShapeState st h
    dsimp only [initShapeState] at hb1 hb2
    simp only [List.length_nil, Nat.zero_add, List.nil_append] at hb1 hb2
    have hgen : ∀ k, k < gtfs.shapes.length →
        st.shape_start_indices.getD k 0
          = ((gtfs.shapes.take k).map (fun e => e.2.length)).sum := by
      intro k hk
      rw [hb2, startIndicesFrom_getD _ 0 k (by simpa using hk), ← List.map_take]
      have hle : ((gtfs.shapes.take k).map (fun e => e.2.length)).sum
          ≤ (gtfs.shapes.map (fun e => e.2.length)).sum := by
        rw [List.map_take]
        exact sum_take_le _ k
      omega
    refine ⟨?_, ?_, hgen⟩
    · rw [hb2, startIndicesFrom_length, List.length_map]
    · intro h0
      rw [hgen 0 h0]
      simp
  · intro gtfs network transfers bufs h hbound
    cases hspm : stopPoints gtfs network with
    | none =>
      simp only [exportTransfersBuffers, hspm] at h
      exact Option.noConfusion h
    | some sp =>
      simp only [exportTransfersBuffers, hspm] at h
      obtain ⟨hb1, hb2, hb3, hb4, hb5⟩ :=
        transferLoop_buffers sp transfers ⟨[], [], [], []⟩ bufs h
      dsimp only at hb1 hb2
      simp only [List.length_nil, List.nil_append] at hb1 hb2
      have hplen : bufs.points.length = 6 * transfers.length := by
        rw [hb1]
        exact flatMap_length_of_const
          (fun t => [(sp.getD t.start_idx (0, 0)).1, (sp.getD t.start_idx (0, 0)).2, 100,
            (sp.getD t.end_idx (0, 0)).1, (sp.getD t.end_idx (0, 0)).2, 100]) 6
          (fun a => rfl) transfers
      have hgen : ∀ k, k < transfers.length → bufs.start_indices.getD k 0 = 2 * k := by
        intro k hk
        rw [hb2, startIndicesFrom_getD _ 0 k (by simpa using hk),
          map_const_two_sum transfers k (Nat.le_of_lt hk)]
        omega
      refine ⟨?_, ?_, hgen⟩
      · rw [hb2, startIndicesFrom_length, List.length_map]
      · intro h0
        rw [hgen 0 h0]

/-- C6 witness: the concrete runs on `gtfsRed` (shape exporter) and on
`gtfsStops`/`netAB` with a single transfer. -/
theorem export_start_index_tables_witness :
    (shapeExport gtfsRed = some stRed
      ∧ stRed.shape_points.length < 4294967296
      ∧ stRed.shape_start_indices.getD 1 0
          = ((gtfsRed.shapes.take 1).map (fun e => e.2.length)).sum)
    ∧ (exportTransfersBuffers gtfsStops netAB [⟨0, 1, 100, 220⟩] = some bufsAB
      ∧ bufsAB.points.length < 4294967296
      ∧ bufsAB.start_indices.getD 0 0 = 2 * 0) :=
  ⟨⟨rfl, by decide,
      (export_start_index_tables.1 gtfsRed stRed rfl (by decide)).2.2 1 (by decide)⟩,
    ⟨rfl, by decide,
      (export_start_index_tables.2 gtfsStops netAB [⟨0, 1, 100, 220⟩] bufsAB rfl
        (by decide)).2.2 0 (by decide)⟩⟩

/-- C7. For every transfer list that exports successfully, the point
buffer holds exactly `6 * len(transfers)` f32 values and the timestamp
buffer `2 * len(transfers)`; transfer `k` contributes, in input order,
the resolved `(lon, lat, 100)` of its `start_idx` stop then of its
`end_idx` stop and its `(timestamp, arrival_time)`; and the colour
buffer is the fixed purple `(160, 32, 240)` once per point. -/
theorem export_transfers_buffer_contents (gtfs : Gtfs) (network : Network)
    (sp : List (Rat × Rat)) (transfers : List AgentTransfer) (bufs : TransferBuffers)
    (hsp : stopPoints gtfs network = some sp)
    (hex : exportTransfersBuffers gtfs network transfers = some bufs) :
    bufs.points.length = 6 * transfers.length
    ∧ bufs.timestamps.length = 2 * transfers.length
    ∧ (∀ k, k < transfers.length →
        (transfers.getD k ⟨0, 0, 0, 0⟩).start_idx < sp.length
        ∧ (transfers.getD k ⟨0, 0, 0, 0⟩).end_idx < sp.length
        ∧ (bufs.points.drop (6 * k)).take 6
            = [(sp.getD (transfers.getD k ⟨0, 0, 0, 0⟩).start_idx (0, 0)).1,
               (sp.getD (transfers.getD k ⟨0, 0, 0, 0⟩).start_idx (0, 0)).2, 100,
               (sp.getD (transfers.getD k ⟨0, 0, 0, 0⟩).end_idx (0, 0)).1,
               (sp.getD (transfers.getD k ⟨0, 0, 0, 0⟩).end_idx (0, 0)).2, 100]
        ∧ (bufs.timestamps.drop (2 * k)).take 2
            = [(transfers.getD k ⟨0, 0, 0, 0⟩).timestamp,
               (transfers.getD k ⟨0, 0, 0, 0⟩).arrival_time])
    ∧ bufs.colours
        = List.flatten (List.replicate (2 * transfers.length) [160, 32, 240]) := by
  have hex2 : transferLoop sp ⟨[], [], [], []⟩ transfers = some bufs := by
    simpa [exportTransfersBuffers, hsp] using hex
  obtain ⟨hb1, hb2, hb3, hb4, hb5⟩ :=
    transferLoop_buffers sp transfers ⟨[], [], [], []⟩ bufs hex2
  dsimp only at hb1 hb3 hb4
  simp only [List.nil_append] at hb1 hb3 hb4
  refine ⟨?_, ?_, ?_, ?_⟩
  · rw [hb1]
    exact flatMap_length_of_const
      (fun t => [(sp.getD t.start_idx (0, 0)).1, (sp.getD t.start_idx (0, 0)).2, 100,
        (sp.getD t.end_idx (0, 0)).1, (sp.getD t.end_idx (0, 0)).2, 100]) 6
      (fun a => rfl) transfers
  · rw [hb3]
    exact flatMap_length_of_const
      (fun t => [t.timestamp, t.arrival_time]) 2 (fun a => rfl) transfers
  · intro k hk
    have hmem : transfers.getD k ⟨0, 0, 0, 0⟩ ∈ transfers :=
      getD_mem_of_lt transfers k ⟨0, 0, 0, 0⟩ hk
    refine ⟨(hb5 _ hmem).1, (hb5 _ hmem).2, ?_, ?_⟩
    · rw [hb1,
        flatMap_take_head
          (fun t => [(sp.getD t.start_idx (0, 0)).1, (sp.getD t.start_idx (0, 0)).2, 100,
            (sp.getD t.end_idx (0, 0)).1, (sp.getD t.end_idx (0, 0)).2, 100]) 6
          (fun a => rfl) transfers k hk ⟨0, 0, 0, 0⟩]
    · rw [hb3,
        flatMap_take_head
          (fun t => [t.timestamp, t.arrival_time]) 2
          (fun a => rfl) transfers k hk ⟨0, 0, 0, 0⟩]
  · rw [hb4, flatMap_six_flatten]

/-- C7 witness: one transfer between the two stops of `gtfsStops`. -/
theorem export_transfers_buffer_contents_witness :
    stopPoints gtfsStops netAB = some [(1, 2), (3, 4)]
      ∧ exportTransfersBuffers gtfsStops netAB [⟨0, 1, 100, 220⟩] = some bufsAB
      ∧ bufsAB.points.length = 6 * ([⟨0, 1, 100, 220⟩] : List AgentTransfer).length :=
  ⟨rfl, rfl,
    (export_transfers_buffer_contents gtfsStops netAB [(1, 2), (3, 4)]
      [⟨0, 1, 100, 220⟩] bufsAB rfl rfl).1⟩

/-- C8 (against the code as written): a shape with no referencing trip
makes `export_shape_file` panic (`unwrap()` on `find`), and a transfer
with an out-of-range stop index makes `export_agent_transfers` panic
(slice indexing) — modelled as `none` —, rather than returning an error;
indeed the `DataExportError` enum has only the `IoError` variant, so no
`NotFound` value exists to return. -/
theorem export_lookup_failures_panic :
    shapeExport gtfsOrphan = none
      ∧ exportTransfersBuffers gtfsStops netAB [⟨5, 0, 0, 0⟩] = none
      ∧ (∀ e : DataExportError, ∃ msg, e = DataExportError.ioError msg) := by
  refine ⟨rfl, rfl, ?_⟩
  intro e
  cases e with
  | ioError msg => exact ⟨msg, rfl⟩

/-- C9 (against the code as written): the output of `export_shape_file`
depends on the iteration order of the `gtfs.shapes` `HashMap`.  The two
orders a run may produce for the same two-shape input yield different
colour/height buffers, so two runs need not produce byte-identical
files. -/
theorem export_shape_order_dependent :
    gtfsOrderB.shapes.Perm gtfsOrderA.shapes
      ∧ gtfsOrderB.trips = gtfsOrderA.trips
      ∧ gtfsOrderB.routes = gtfsOrderA.routes
      ∧ gtfsOrderB.stops = gtfsOrderA.stops
      ∧ shapeExport gtfsOrderA ≠ shapeExport gtfsOrderB := by
  refine ⟨?_, rfl, rfl, rfl, ?_⟩
  · show gtfsOrderB.shapes.Perm gtfsOrderA.shapes
    exact List.Perm.swap ("s1", [(⟨1, 2⟩ : ShapePoint)]) ("s2", [(⟨3, 4⟩ : ShapePoint)]) []
  intro hcontra
  have hA : shapeExport gtfsOrderA = some stOrderA := rfl
  have hB : shapeExport gtfsOrderB = some stOrderB := rfl
  rw [hA, hB] at hcontra
  have h1 : stOrderA = stOrderB := Option.some.inj hcontra
  have h2 := congrArg ShapeState.shape_points h1
  have h3 := congrArg (fun l => l.getD 0 0) h2
  simp only [stOrderA, stOrderB, List.getD_cons_zero] at h3
  norm_num at h3

/-- C10. On empty domain input the exporters write a header-only file,
not a zero-length one: with zero shapes `export_shape_file` writes
exactly 24 bytes (three header entries, each offset 24 / length 0), and
with an empty transfer list `export_agent_transfers` writes exactly 32
bytes (four header entries, each offset 32 / length 0), the data region
empty in both cases.  The statement holds for every per-value `f64`/`f32`
serialization, since no value is serialized. -/
theorem export_header_only_files (serF64 serF32 : Rat → List Nat)
    (gtfs gtfs2 : Gtfs) (network : Network) (sp : List (Rat × Rat))
    (hshapes : gtfs.shapes = [])
    (hsp : stopPoints gtfs2 network = some sp) :
    export_shape_file_bytes serF64 gtfs = some shapeEmptyFile
    ∧ shapeEmptyFile.length = 24
    ∧ (∀ i, i < 3 → headerOffset shapeEmptyFile i = 24 ∧ headerLength shapeEmptyFile i = 0)
    ∧ export_agent_transfers_file serF64 serF32 gtfs2 network [] = some transferEmptyFile
    ∧ transferEmptyFile.length = 32
    ∧ (∀ i, i < 4 →
        headerOffset transferEmptyFile i = 32 ∧ headerLength transferEmptyFile i = 0) := by
  have hse : shapeExport gtfs = some initShapeState := by
    rw [shapeExport, hshapes]
    rfl
  refine ⟨?_, by decide, by decide, ?_, by decide, by decide⟩
  · simp only [export_shape_file_bytes, hse]
    have h1 : initShapeState.shape_points.flatMap serF64 = [] := rfl
    have h2 : u32ListBytes initShapeState.shape_start_indices = [] := rfl
    have h3 : initShapeState.shape_colours = ([] : List Nat) := rfl
    rw [h1, h2, h3]
    decide
  · simp only [export_agent_transfers_file, exportTransfersBuffers, hsp, transferLoop]
    have h1 : ([] : List Rat).flatMap serF64 = [] := rfl
    have h2 : ([] : List Rat).flatMap serF32 = [] := rfl
    have h3 : u32ListBytes [] = [] := rfl
    rw [h1, h2, h3]
    decide

/-- C10 witness: the empty GTFS input and the empty network, with a
placeholder byte serialization. -/
theorem export_header_only_files_witness :
    (emptyGtfs.shapes = [])
      ∧ stopPoints emptyGtfs emptyNet = some []
      ∧ export_shape_file_bytes (fun _ => List.replicate 8 0) emptyGtfs
          = some shapeEmptyFile :=
  ⟨rfl, rfl,
    (export_header_only_files (fun _ => List.replicate 8 0) (fun _ => List.replicate 4 0)
      emptyGtfs emptyGtfs emptyNet [] rfl rfl).1⟩

end TrainUte
